import Mathlib

/-!
Verification of the cran container-image pipeline (Go sources under
internal/registry, internal/sync, internal/version and sdk) against its
natural-language specification.  Pure Go functions are embedded as Lean
functions; functions that perform registry / network I/O are embedded as
computations over an explicit oracle world (one oracle field per registry
client method), returning their result together with a trace of the
registry operations they invoked.

Go string primitives (strings.Split, strings.Index, TrimPrefix, ...) are
embedded as structurally recursive functions on the character list of the
string, so that every definition evaluates by kernel reduction.
-/

deriving instance DecidableEq for Except

namespace Cran

/-! ### Character-list embeddings of the Go string primitives -/

/-- `strings.Contains(s, pat)` over character lists. -/
def containsSub (pat : List Char) : List Char → Bool
  | [] => pat.isEmpty
  | c :: rest => pat.isPrefixOf (c :: rest) || containsSub pat rest

/-- `strings.Split(s, sep)` for a one-character separator. -/
def splitOnChar (sep : Char) : List Char → List (List Char)
  | [] => [[]]
  | c :: rest =>
    match splitOnChar sep rest with
    | [] => [[]]
    | h :: t => if c = sep then [] :: h :: t else (c :: h) :: t

/-- `strings.TrimPrefix(s, "v")`. -/
def trimV : List Char → List Char
  | 'v' :: rest => rest
  | cs => cs

/-- The prefix of `cs` before the first occurrence of `sep`; `cs` itself when
`sep` does not occur (the Go idiom `s[:strings.Index(s, sep)]`). -/
def takeUntilChar (sep : Char) (cs : List Char) : List Char :=
  cs.takeWhile (fun c => c ≠ sep)

/-- Whether `sep` occurs in `cs`. -/
def containsChar (sep : Char) (cs : List Char) : Bool :=
  cs.any (fun c => c = sep)

/-! ### internal/version: pure tag and version functions -/

/-- Value read by the Go statement `fmt.Sscanf(part, "%d", &num)`: skip
leading whitespace, allow one plus sign, then read the longest run of
decimal digits; `num` keeps its zero value `0` when no digits follow.  (A
minus sign cannot occur: `stripVersionPrefix` cuts the string at its first
hyphen before the parts are split.) -/
def parseNum (cs : List Char) : Nat :=
  let cs := cs.dropWhile Char.isWhitespace
  let cs := match cs with
    | '+' :: rest => rest
    | l => l
  (cs.takeWhile Char.isDigit).foldl
    (fun acc c => acc * 10 + (c.toNat - Char.toNat '0')) 0

/-- `stripVersionPrefix`: removes a leading "v" and cuts the string at the
first hyphen (dropping the variant suffix). -/
def stripVersionPrefix (version : String) : List Char :=
  takeUntilChar '-' (trimV version.toList)

/-- The numeric components of a version string: strip the prefix, split on
dots, read each part with Sscanf semantics. -/
def versionParts (version : String) : List Nat :=
  (splitOnChar '.' (stripVersionPrefix version)).map parseNum

/-- The comparison loop of `compareVersions`: `for idx := range maxLen`,
reading position `idx` of each part list with `0` for a missing position,
returning at the first unequal position. -/
def compareLoop (parts1 parts2 : List Nat) (idx fuel : Nat) : Int :=
  match fuel with
  | 0 => 0
  | fuel + 1 =>
    let num1 := parts1.getD idx 0
    let num2 := parts2.getD idx 0
    if num1 < num2 then -1
    else if num2 < num1 then 1
    else compareLoop parts1 parts2 (idx + 1) fuel

/-- `compareVersions` from internal/version: component-wise numeric
comparison of the two version strings. -/
def compareVersions (version1 version2 : String) : Int :=
  compareLoop (versionParts version1) (versionParts version2) 0
    (max (versionParts version1).length (versionParts version2).length)

/-- `extractVariant`: strips a leading "v" and cuts at the first hyphen
(`strings.Cut`), returning (version, variant); the variant is empty when
there is no hyphen. -/
def extractVariant (fullVersion : String) : String × String :=
  let fv := trimV fullVersion.toList
  if containsChar '-' fv then
    (String.mk (takeUntilChar '-' fv),
     String.mk ((fv.dropWhile (fun c => c ≠ '-')).drop 1))
  else
    (String.mk fv, "")

/-- The denylist of substrings excluding development and test tags. -/
def excludePatterns : List String :=
  ["nightly", "dev", "beta", "alpha", "rc", "test", "snapshot", "builder"]

/-- Whether a character sequence matches the anchored regular expression
core fragment of one or more digits, a literal dot, one or more digits,
then any run of digits and dots.  Over the digit-or-dot alphabet this is
equivalent to: nonempty, starts with a digit, contains a dot, and the
character right after the first dot is a digit. -/
def matchesCore (cs : List Char) : Bool :=
  match cs with
  | [] => false
  | c :: _ =>
    c.isDigit && cs.all (fun ch => ch.isDigit || ch = '.') &&
      (match cs.dropWhile (fun ch => ch ≠ '.') with
       | _ :: d :: _ => d.isDigit
       | _ => false)

/-- The plain-version pattern: an optional leading v, then the core. -/
def matchesVersionPattern (tag : List Char) : Bool :=
  matchesCore (trimV tag)

/-- The variant pattern: the plain pattern followed by a literal hyphen and
the variant (the variant is quoted verbatim in the Go regular expression). -/
def matchesVariantPattern (tag : List Char) (variant : String) : Bool :=
  let suff := '-' :: variant.toList
  suff.isSuffixOf tag && matchesVersionPattern (tag.take (tag.length - suff.length))

/-- `isValidVersion` from internal/version: no denylisted substring
(case-insensitively), and the numeric-dot pattern, with the exact variant
suffix required when a variant is set. -/
def isValidVersion (tag variant : String) : Bool :=
  let lowerTag := tag.toList.map Char.toLower
  if excludePatterns.any (fun pat => containsSub pat.toList lowerTag) then false
  else if variant ≠ "" then matchesVariantPattern tag.toList variant
  else matchesVersionPattern tag.toList

/-- The order in which `sort.Slice(versions, compareVersions < 0)` arranges
tags: nondecreasing under `compareVersions`. -/
def vle (a b : String) : Prop := compareVersions a b ≤ 0

instance : DecidableRel vle :=
  fun a b => inferInstanceAs (Decidable (compareVersions a b ≤ 0))

/-- The `Info` struct returned by `CheckVersion`. -/
structure VersionInfo where
  currentVersion : String
  latestVersion : String
  latestDigest : String
  updateAvailable : Bool
  deriving DecidableEq, Repr

/-- Oracle for the version checker's remote operations: `remote.List` over a
repository reference and `remote.Get` (descriptor digest) over a full image
reference.  Reference-parse failures are folded into each oracle's error
outcome. -/
structure VersionWorld where
  listTags : String → Except String (List String)
  remoteGetDigest : String → Except String String

/-- `GetTagDigest` from internal/version: parse the reference and fetch the
descriptor's digest. -/
def getTagDigest (w : VersionWorld) (imageRef : String) : Except String String :=
  w.remoteGetDigest imageRef

/-- `CheckVersion` from internal/version.  The per-tag digest fetches are
best-effort (failures skipped); the map lookup of the latest tag's digest is
evaluated at the latest tag, with the Go map's zero value for a missing
entry.  `sort.Slice` with the strict `compareVersions < 0` comparator is
embedded as a sort into nondecreasing `vle` order. -/
def checkVersion (w : VersionWorld) (imageRef currentVersion variant : String) :
    Except String VersionInfo :=
  let var := if variant = "" then (extractVariant currentVersion).2 else variant
  match w.listTags imageRef with
  | .error e => .error ("failed to list tags: " ++ e)
  | .ok tags =>
    let versions := tags.filter (fun tag => isValidVersion tag var)
    if versions = [] then .error ("no valid versions found: " ++ imageRef)
    else
      let sorted := versions.insertionSort vle
      let latestVersion := sorted.getLastD ""
      let latestDigest :=
        match w.remoteGetDigest (imageRef ++ ":" ++ latestVersion) with
        | .ok d => d
        | .error _ => ""
      .ok ⟨currentVersion, latestVersion, latestDigest, currentVersion != latestVersion⟩

/-! ### internal/registry: the client's pure parts -/

/-- One entry of a constructed image index: the platform fields of the
descriptor and the image added under it. -/
structure Descriptor (Img : Type) where
  os : String
  arch : String
  img : Img
  deriving DecidableEq, Repr

/-- `strings.SplitN(platform, "/", 2)`: the part before the first slash and,
when a slash occurs, everything after it. -/
def splitPlatform (platform : String) : String × Option String :=
  let cs := platform.toList
  if containsChar '/' cs then
    (String.mk (takeUntilChar '/' cs),
     some (String.mk ((cs.dropWhile (fun c => c ≠ '/')).drop 1)))
  else (platform, none)

/-- `sort.Strings`: lexicographic sort of the platform keys. -/
def sortStrings (l : List String) : List String :=
  l.insertionSort (fun a b => a ≤ b)

/-- Go map read `platformImages[platform]` over the association-list model
of the map (keys are unique). -/
def lookupImg {Img : Type} (k : String) : List (String × Img) → Option Img
  | [] => none
  | (k2, v) :: rest => if k = k2 then some v else lookupImg k rest

/-- The append loop of `PushManifestList` over an already sorted platform
list: for each platform, split it into OS and architecture and append a
descriptor for the map's image.  `none` models the two impossible-in-Go
outcomes: a missing map key cannot happen, and a platform with no slash
makes the Go code panic on `parts[1]`. -/
def manifestIndexLoop {Img : Type} (platformImages : List (String × Img)) :
    List String → Option (List (Descriptor Img))
  | [] => some []
  | p :: rest =>
    match lookupImg p platformImages, splitPlatform p with
    | some img, (osName, some archName) =>
      (manifestIndexLoop platformImages rest).map
        (fun t => { os := osName, arch := archName, img := img } :: t)
    | _, _ => none

/-- The index `PushManifestList` constructs: platform keys sorted
lexicographically, then appended in that order. -/
def manifestIndex {Img : Type} (platformImages : List (String × Img)) :
    Option (List (Descriptor Img)) :=
  manifestIndexLoop platformImages (sortStrings (platformImages.map Prod.fst))

/-! ### internal/sync: pure reference helpers -/

/-- The backward scan of `stripTag`: over the reversed reference, drop
characters until the first colon (returning what stands before it in the
original) and stop at a slash. -/
def stripTagScan : List Char → Option (List Char)
  | [] => none
  | ':' :: rest => some rest
  | '/' :: _ => none
  | _ :: rest => stripTagScan rest

/-- `stripTag` from internal/sync: cut at the first at-sign (digest form),
else cut the tag found by scanning backwards to a colon, stopping at a
slash so a registry port is not cut. -/
def stripTag (imageRef : String) : String :=
  let cs := imageRef.toList
  if containsChar '@' cs then String.mk (takeUntilChar '@' cs)
  else
    match stripTagScan cs.reverse with
    | some rest => String.mk rest.reverse
    | none => imageRef

/-- `sanitizePlatform`: the architecture part after the last slash, or the
whole string when there is no slash. -/
def sanitizePlatform (platform : String) : String :=
  String.mk ((platform.toList.reverse.takeWhile (fun c => c ≠ '/')).reverse)

/-- The platform allowlist of the sync engine. -/
def supportedPlatforms : List String := ["linux/amd64", "linux/arm64"]

/-- The inner loop of `syncMultiPlatform` deciding whether a platform is
synced. -/
def isSupported (platform : String) : Bool :=
  supportedPlatforms.contains platform

/-- The destination reference of one platform's copy: the destination
suffixed with the sanitized platform. -/
def platformDst (dstImage platform : String) : String :=
  dstImage ++ "-" ++ sanitizePlatform platform

/-! ### internal/sync and internal/registry: the effectful operations,
over an oracle world, with a trace of the registry operations invoked -/

/-- A registry client operation, as recorded in the trace. -/
inductive Op where
  | getImage (ref : String)
  | copyImage (src dst : String)
  | getPlatformDigests (ref : String)
  | copyPlatformImage (src dig dst : String)
  | getImageHandle (ref : String)
  | getDigest (ref : String)
  | writeIndex (ref : String)
  deriving DecidableEq, Repr

/-- The oracle world of registry operations.  Each field models one client
method's interaction with the registry (reference-parse failures folded into
the error outcome); `imgDigest` and `indexDigest` model the locally computed
`Digest()` of fetched content — no registry involved. -/
structure RegistryWorld (Img : Type) where
  getImage : String → Except String Bool
  copyImage : String → String → Except String Unit
  getPlatformDigests : String → Except String (List (String × String))
  copyPlatformImage : String → String → String → Except String Unit
  getImageHandle : String → Except String Img
  getDigest : String → Except String String
  imgDigest : Img → String
  indexDigest : List (Descriptor Img) → String
  writeIndex : String → List (Descriptor Img) → Except String Unit

/-- `PushManifestList` from internal/registry: build the index from the
sorted platform keys, push it with `WriteIndex`, and return the digest
computed locally from the constructed index (never asked of the registry). -/
def pushManifestList {Img : Type} (w : RegistryWorld Img) (manifestRef : String)
    (platformImages : List (String × Img)) : Except String String × List Op :=
  match manifestIndex platformImages with
  | none => (.error "invalid platform key", [])
  | some idx =>
    match w.writeIndex manifestRef idx with
    | .error e => (.error ("failed to push manifest list: " ++ e), [Op.writeIndex manifestRef])
    | .ok _ => (.ok (w.indexDigest idx), [Op.writeIndex manifestRef])

/-- `syncSinglePlatform`: copy the image, fetch the pushed image back from
the destination, and return its locally computed digest. -/
def syncSinglePlatform {Img : Type} (w : RegistryWorld Img) (srcImage dstImage : String) :
    Except String String × List Op :=
  match w.copyImage srcImage dstImage with
  | .error e => (.error ("failed to copy image: " ++ e), [Op.copyImage srcImage dstImage])
  | .ok _ =>
    match w.getImageHandle dstImage with
    | .error e =>
      (.error ("failed to get destination image handle: " ++ e),
       [Op.copyImage srcImage dstImage, Op.getImageHandle dstImage])
    | .ok img =>
      (.ok (w.imgDigest img),
       [Op.copyImage srcImage dstImage, Op.getImageHandle dstImage])

/-- The platform loop of `syncMultiPlatform`: skip unsupported platforms;
for each supported one, copy the platform image by its digest (tag stripped
from the source reference) to the suffixed destination, fetch the pushed
image back, and collect it into the platform-image map. -/
def syncPlatformsLoop {Img : Type} (w : RegistryWorld Img) (srcImage dstImage : String) :
    List (String × String) → List (String × Img) →
    Except String (List (String × Img)) × List Op
  | [], acc => (.ok acc, [])
  | (platform, dig) :: rest, acc =>
    if isSupported platform then
      match w.copyPlatformImage (stripTag srcImage) dig (platformDst dstImage platform) with
      | .error e =>
        (.error ("failed to copy platform " ++ platform ++ ": " ++ e),
         [Op.copyPlatformImage (stripTag srcImage) dig (platformDst dstImage platform)])
      | .ok _ =>
        match w.getImageHandle (platformDst dstImage platform) with
        | .error e =>
          (.error ("failed to fetch pushed image for platform " ++ platform ++ ": " ++ e),
           [Op.copyPlatformImage (stripTag srcImage) dig (platformDst dstImage platform),
            Op.getImageHandle (platformDst dstImage platform)])
        | .ok img =>
          match syncPlatformsLoop w srcImage dstImage rest (acc ++ [(platform, img)]) with
          | (res, tr) =>
            (res,
             Op.copyPlatformImage (stripTag srcImage) dig (platformDst dstImage platform) ::
               Op.getImageHandle (platformDst dstImage platform) :: tr)
    else
      syncPlatformsLoop w srcImage dstImage rest acc

/-- `syncMultiPlatform`: platform digests from the source index, the
platform loop, then the manifest list pushed at the unsuffixed destination.
The pairs listed by `getPlatformDigests` stand for one enumeration of the
Go map (its iteration order is arbitrary). -/
def syncMultiPlatform {Img : Type} (w : RegistryWorld Img) (srcImage dstImage : String) :
    Except String String × List Op :=
  match w.getPlatformDigests srcImage with
  | .error e => (.error ("failed to get platform digests: " ++ e), [Op.getPlatformDigests srcImage])
  | .ok platformDigests =>
    match syncPlatformsLoop w srcImage dstImage platformDigests [] with
    | (.error e, tr) => (.error e, Op.getPlatformDigests srcImage :: tr)
    | (.ok platformImages, tr) =>
      match pushManifestList w dstImage platformImages with
      | (.error e, ptr) =>
        (.error ("failed to create manifest list: " ++ e),
         Op.getPlatformDigests srcImage :: (tr ++ ptr))
      | (.ok dig, ptr) => (.ok dig, Op.getPlatformDigests srcImage :: (tr ++ ptr))

/-- `SyncImage`: fetch the source descriptor and dispatch on whether its
media type denotes an index. -/
def syncImage {Img : Type} (w : RegistryWorld Img) (srcImage dstImage : String) :
    Except String String × List Op :=
  match w.getImage srcImage with
  | .error e => (.error ("failed to get source image: " ++ e), [Op.getImage srcImage])
  | .ok isIndex =>
    if isIndex then
      match syncMultiPlatform w srcImage dstImage with
      | (res, tr) => (res, Op.getImage srcImage :: tr)
    else
      match syncSinglePlatform w srcImage dstImage with
      | (res, tr) => (res, Op.getImage srcImage :: tr)

/-- The retained pairs of a platform-digest enumeration: those in the
supported set, in enumeration order (used by the theorems about the sync
engine). -/
def retainedOf (pairs : List (String × String)) : List (String × String) :=
  pairs.filter (fun pr => isSupported pr.1)

/-- The platform-image map the loop collects when every retained copy and
fetch succeeds: each retained platform paired with the image the destination
returns for its suffixed reference. -/
def retainedImages {Img : Type} (w : RegistryWorld Img) (dstImage : String)
    (pairs : List (String × String)) : List (String × Img) :=
  (retainedOf pairs).filterMap
    (fun pr => (w.getImageHandle (platformDst dstImage pr.1)).toOption.map
      (fun img => (pr.1, img)))

/-- The trace the loop produces when every retained copy and fetch
succeeds. -/
def retainedTrace (srcImage dstImage : String) (pairs : List (String × String)) : List Op :=
  (retainedOf pairs).flatMap
    (fun pr =>
      [Op.copyPlatformImage (stripTag srcImage) pr.2 (platformDst dstImage pr.1),
       Op.getImageHandle (platformDst dstImage pr.1)])

/-! ### sdk/plan.go: the plan and its execution order -/

/-- One registered resource: its name and the outcome its `execute` method
returns when it runs. -/
structure PResource where
  name : String
  run : Except String Unit
  deriving DecidableEq, Repr

/-- The plan's append-only resource collections, one per kind. -/
structure Plan where
  versionChecks : List PResource
  syncs : List PResource
  builds : List PResource
  scans : List PResource
  audits : List PResource
  deriving DecidableEq, Repr

/-- One stage's loop (`executeSyncs` and its four siblings): run each
resource in registration order, returning the first error.  The second
component is the list of resources that were executed (the failing one
included). -/
def runStage : List PResource → Except String Unit × List String
  | [] => (.ok (), [])
  | r :: rest =>
    match r.run with
    | .error e => (.error e, [r.name])
    | .ok _ =>
      match runStage rest with
      | (res, tr) => (res, r.name :: tr)

/-- `Plan.Execute`: version checks, then syncs, then builds, then scans,
then audits, aborting at the first stage that returns an error. -/
def planExecute (plan : Plan) : Except String Unit × List String :=
  match runStage plan.versionChecks with
  | (.error e, t1) => (.error e, t1)
  | (.ok _, t1) =>
    match runStage plan.syncs with
    | (.error e, t2) => (.error e, t1 ++ t2)
    | (.ok _, t2) =>
      match runStage plan.builds with
      | (.error e, t3) => (.error e, t1 ++ t2 ++ t3)
      | (.ok _, t3) =>
        match runStage plan.scans with
        | (.error e, t4) => (.error e, t1 ++ t2 ++ t3 ++ t4)
        | (.ok _, t4) =>
          match runStage plan.audits with
          | (.error e, t5) => (.error e, t1 ++ t2 ++ t3 ++ t4 ++ t5)
          | (.ok _, t5) => (.ok (), t1 ++ t2 ++ t3 ++ t4 ++ t5)

/-- All resources of a plan in the fixed five-stage order, registration
order within a stage. -/
def allResources (plan : Plan) : List PResource :=
  plan.versionChecks ++ plan.syncs ++ plan.builds ++ plan.scans ++ plan.audits

/-! ### sdk: Image, VersionCheck and Scan resources -/

/-- The sdk `Image`: name with optional version and digest (empty string
for absent, as in Go). -/
structure SImage where
  name : String
  version : String
  digest : String
  deriving DecidableEq, Repr

/-- `Image.tagRef`: "name:version" (the builder guarantees a version is
set before this is reached). -/
def tagRef (img : SImage) : String := img.name ++ ":" ++ img.version

/-- `Image.digestRef`: "name@digest". -/
def digestRef (img : SImage) : String := img.name ++ "@" ++ img.digest

/-- The dedicated `VersionCheck.execute` error for a digest-pin mismatch. -/
def errDigestMismatch : String :=
  "DIGEST MISMATCH (possible tag mutation or supply chain attack)"

/-- A version-checker call, as recorded in the trace of
`versionCheckExecute`. -/
inductive VOp where
  | tagDigest (ref : String)
  | checkUpdates (imageRef currentVersion variant : String)
  deriving DecidableEq, Repr

/-- The update-check phase of `VersionCheck.execute`: `CheckVersion` with
the variant auto-extracted; its error aborts, an available update is only
logged. -/
def versionCheckUpdatePhase (w : VersionWorld) (img : SImage) :
    Except String Unit × List VOp :=
  match checkVersion w img.name img.version "" with
  | .error e =>
    (.error ("failed to check version: " ++ e), [VOp.checkUpdates img.name img.version ""])
  | .ok _ => (.ok (), [VOp.checkUpdates img.name img.version ""])

/-- `VersionCheck.execute`: when the image carries an expected digest, the
live digest of the tag is fetched and compared first — a fetch failure or a
mismatch aborts before the update check; when no digest is set, the same
fetch is made only to log a warning, and its outcome cannot abort. -/
def versionCheckExecute (w : VersionWorld) (img : SImage) :
    Except String Unit × List VOp :=
  let tagReference := tagRef img
  if img.digest ≠ "" then
    match getTagDigest w tagReference with
    | .error e =>
      (.error ("failed to get current version digest: " ++ e), [VOp.tagDigest tagReference])
    | .ok actualDigest =>
      if actualDigest ≠ img.digest then
        (.error (errDigestMismatch ++ ": current version " ++ tagReference ++
            " points to " ++ actualDigest ++ ", expected " ++ img.digest),
         [VOp.tagDigest tagReference])
      else
        match versionCheckUpdatePhase w img with
        | (res, tr) => (res, VOp.tagDigest tagReference :: tr)
  else
    match versionCheckUpdatePhase w img with
    | (res, tr) => (res, VOp.tagDigest tagReference :: tr)

/-- The builder state a `ScanBuilder` holds when `Build()` is called. -/
structure ScanCfg where
  image : Option SImage
  severityChecks : List (String × String)
  format : String
  deriving DecidableEq, Repr

/-- A built `Scan` resource. -/
structure ScanRec where
  image : SImage
  severityChecks : List (String × String)
  format : String
  deriving DecidableEq, Repr

/-- `ScanBuilder.Build`: the image is required (`log.Fatal` embedded as the
error outcome); the digest is deliberately not validated here; defaults are
applied to the severity checks and the format. -/
def scanBuild (cfg : ScanCfg) : Except String ScanRec :=
  match cfg.image with
  | none => .error "scan image is required"
  | some img =>
    let checks :=
      if cfg.severityChecks = [] then [("HIGH", "error"), ("CRITICAL", "error")]
      else cfg.severityChecks
    let fmt := if cfg.format = "" then "table" else cfg.format
    .ok { image := img, severityChecks := checks, format := fmt }

/-- The `severityOrder` map of scan.go, with the Go map's zero value for an
unknown name. -/
def severityLevel (s : String) : Nat :=
  if s = "LOW" then 1
  else if s = "MEDIUM" then 2
  else if s = "HIGH" then 3
  else if s = "CRITICAL" then 4
  else 0

/-- The scan error for a missing digest at execution time. -/
def errScanMustHaveDigest : String :=
  "scan image MUST have digest specified (scanning by tag alone is not allowed)"

/-- Oracle for the Trivy collaborator: the severities of the
vulnerabilities a scan finds, and the formatter. -/
structure ScanWorld where
  trivyScan : String → Except String (List String)
  formatOutput : List String → String → Except String String

/-- The reference a scan is run against: digest preferred, then tag, then
bare name. -/
def scanImageRef (img : SImage) : String :=
  if img.digest ≠ "" then digestRef img
  else if img.version ≠ "" then tagRef img
  else img.name

/-- The sequential severity-check loop of `Scan.execute`: at each threshold,
vulnerabilities at or above it; an empty match continues, otherwise the
output is formatted and the action decides — error aborts, warn and info
log and continue. -/
def scanChecksLoop (w : ScanWorld) (fmt : String) (vulns : List String) :
    List (String × String) → Except String Unit
  | [] => .ok ()
  | (threshold, action) :: rest =>
    let matching := vulns.filter (fun v => severityLevel threshold ≤ severityLevel v)
    if matching = [] then scanChecksLoop w fmt vulns rest
    else
      match w.formatOutput matching fmt with
      | .error e => .error ("failed to format output: " ++ e)
      | .ok _ =>
        if action = "error" then
          .error ("vulnerabilities found at or above threshold: " ++ threshold)
        else scanChecksLoop w fmt vulns rest

/-- The body of `Scan.execute` after the digest guard: one Trivy run with
all severities, then the check loop. -/
def scanRun (w : ScanWorld) (scan : ScanRec) : Except String Unit :=
  match w.trivyScan (scanImageRef scan.image) with
  | .error e => .error ("failed to scan image: " ++ e)
  | .ok vulns => scanChecksLoop w scan.format vulns scan.severityChecks

/-- `Scan.execute`: the digest guard, then the scan body. -/
def scanExecute (w : ScanWorld) (scan : ScanRec) : Except String Unit :=
  if scan.image.digest = "" then
    .error (errScanMustHaveDigest ++ ": " ++ scan.image.name)
  else scanRun w scan

/-! ### CheckExists -/

/-- The error `remote.Get` returns, as `errors.As` can classify it: a
transport error carrying an HTTP status, or anything else. -/
inductive GetErr where
  | transport (status : Nat) (msg : String)
  | other (msg : String)
  deriving DecidableEq, Repr

/-- The message of a get error. -/
def getErrMsg : GetErr → String
  | .transport _ m => m
  | .other m => m

/-- The `errors.As`-and-404 test of `CheckExists`. -/
def isNotFound : GetErr → Bool
  | .transport status _ => status == 404
  | .other _ => false

/-- `CheckExists` from internal/registry: a parse failure is an error; a
404 transport response maps to (false, no error); any other get failure
maps to (false, error); success maps to (true, no error). -/
def checkExists (parse : String → Except String Unit) (get : String → Except GetErr Unit)
    (imageRef : String) : Bool × Option String :=
  match parse imageRef with
  | .error e => (false, some ("failed to parse image reference: " ++ e))
  | .ok _ =>
    match get imageRef with
    | .ok _ => (true, none)
    | .error err =>
      if isNotFound err then (false, none)
      else (false, some ("failed to check image existence: " ++ getErrMsg err))

/-! ### Concrete oracle worlds used by the witness theorems -/

/-- The oracle world of the C9 witness: a source index carrying only a
windows/amd64 platform. -/
def w9 : RegistryWorld Nat where
  getImage := fun _ => .ok true
  copyImage := fun _ _ => .error "unused"
  getPlatformDigests := fun r =>
    if r = "src.example/app:v1" then .ok [("windows/amd64", "sha256:c3")]
    else .error "not found"
  copyPlatformImage := fun _ _ _ => .error "unused"
  getImageHandle := fun _ => .error "unused"
  getDigest := fun _ => .error "unused"
  imgDigest := fun _ => "sha256:unused"
  indexDigest := fun _ => "sha256:empty-index"
  writeIndex := fun _ _ => .ok ()

/-- The oracle world of the C2 witness: a single-platform source image. -/
def w2 : RegistryWorld Nat where
  getImage := fun r => if r = "lib/app:v1" then .ok false else .error "not found"
  copyImage := fun _ _ => .ok ()
  getPlatformDigests := fun _ => .error "unused"
  copyPlatformImage := fun _ _ _ => .error "unused"
  getImageHandle := fun r => if r = "dest.example/app:v1" then .ok 7 else .error "not found"
  getDigest := fun _ => .ok "sha256:from-registry-never-used"
  imgDigest := fun _ => "sha256:local"
  indexDigest := fun _ => "sha256:unused"
  writeIndex := fun _ _ => .error "unused"

/-- The oracle world of the C4 witness: the spec's end-to-end example — a
source index with amd64, arm64 and a windows platform. -/
def w4 : RegistryWorld Nat where
  getImage := fun _ => .ok true
  copyImage := fun _ _ => .error "unused"
  getPlatformDigests := fun r =>
    if r = "docker.io/lib/app@sha256:aaa" then
      .ok [("linux/amd64", "sha256:b1"), ("linux/arm64", "sha256:b2"),
           ("windows/amd64", "sha256:c3")]
    else .error "not found"
  copyPlatformImage := fun _ _ _ => .ok ()
  getImageHandle := fun r =>
    if r = "dest.example/app:v1-amd64" then .ok 1
    else if r = "dest.example/app:v1-arm64" then .ok 2
    else .error "not found"
  getDigest := fun _ => .error "unused"
  imgDigest := fun _ => "sha256:unused"
  indexDigest := fun _ => "sha256:list"
  writeIndex := fun _ _ => .ok ()

/-- The platform-digest enumeration of the C4 witness. -/
def pd4 : List (String × String) :=
  [("linux/amd64", "sha256:b1"), ("linux/arm64", "sha256:b2"),
   ("windows/amd64", "sha256:c3")]

/-- The oracle world of the C1 witness. -/
def w1 : RegistryWorld Nat where
  getImage := fun _ => .ok true
  copyImage := fun _ _ => .error "unused"
  getPlatformDigests := fun _ => .error "unused"
  copyPlatformImage := fun _ _ _ => .error "unused"
  getImageHandle := fun _ => .error "unused"
  getDigest := fun _ => .error "unused"
  imgDigest := fun _ => "sha256:unused"
  indexDigest := fun idx => "sha256:digest-of-" ++ String.intercalate "," (idx.map Descriptor.arch)
  writeIndex := fun _ _ => .ok ()

/-- The oracle world of the C10 witness. -/
def w10 : VersionWorld where
  listTags := fun r =>
    if r = "timberio/vector" then
      .ok ["1.9.0", "1.10.0", "1.10.0-beta", "latest", "nightly"]
    else .error "not found"
  remoteGetDigest := fun _ => .ok "sha256:ddd"

/-! ## Theorems -/

/-- The comparison loop returns 0 when the padded components agree
everywhere. -/
theorem compareLoop_eq_of_all_eq (parts1 parts2 : List Nat)
    (h : ∀ i, parts1.getD i 0 = parts2.getD i 0) :
    ∀ (fuel idx : Nat), compareLoop parts1 parts2 idx fuel = 0 := by
  intro fuel
  induction fuel with
  | zero => intro idx; simp [compareLoop]
  | succ n ih =>
    intro idx
    simp only [compareLoop, h idx, lt_irrefl, if_false]
    exact ih (idx + 1)

/-- The comparison loop is decided by the first position at which the
padded components differ. -/
theorem compareLoop_first_diff (parts1 parts2 : List Nat) (i : Nat)
    (hne : parts1.getD i 0 ≠ parts2.getD i 0)
    (hbefore : ∀ j, j < i → parts1.getD j 0 = parts2.getD j 0) :
    ∀ (fuel idx : Nat), idx ≤ i → i < idx + fuel →
      compareLoop parts1 parts2 idx fuel =
        if parts1.getD i 0 < parts2.getD i 0 then -1 else 1 := by
  intro fuel
  induction fuel with
  | zero => intro idx h1 h2; omega
  | succ n ih =>
    intro idx h1 h2
    rcases Nat.eq_or_lt_of_le h1 with heq | hlt
    · subst heq
      simp only [compareLoop]
      rcases Nat.lt_trichotomy (parts1.getD idx 0) (parts2.getD idx 0) with hc | hc | hc
      · simp only [if_pos hc]
      · exact absurd hc hne
      · have hnot : ¬parts1.getD idx 0 < parts2.getD idx 0 := by omega
        simp only [if_neg hnot, if_pos hc]
    · have hstep := hbefore idx hlt
      simp only [compareLoop, hstep, lt_irrefl, if_false]
      exact ih (idx + 1) (by omega) (by omega)

/-- Past both lists the loop compares only defaults and returns 0. -/
theorem compareLoop_zero_of_ge (parts1 parts2 : List Nat) :
    ∀ (fuel idx : Nat), parts1.length ≤ idx → parts2.length ≤ idx →
      compareLoop parts1 parts2 idx fuel = 0 := by
  intro fuel
  induction fuel with
  | zero => intro idx _ _; simp [compareLoop]
  | succ n ih =>
    intro idx h1 h2
    simp only [compareLoop, List.getD_eq_default _ _ h1, List.getD_eq_default _ _ h2,
      lt_irrefl, if_false]
    exact ih (idx + 1) (by omega) (by omega)

/-- The loop's value does not depend on the fuel once the fuel covers both
lists. -/
theorem compareLoop_fuel_ext (parts1 parts2 : List Nat) :
    ∀ (fuel1 fuel2 idx : Nat),
      max parts1.length parts2.length ≤ idx + fuel1 →
      max parts1.length parts2.length ≤ idx + fuel2 →
      compareLoop parts1 parts2 idx fuel1 = compareLoop parts1 parts2 idx fuel2 := by
  intro fuel1
  induction fuel1 with
  | zero =>
    intro fuel2 idx h1 h2
    rw [show compareLoop parts1 parts2 idx 0 = 0 from rfl,
      compareLoop_zero_of_ge parts1 parts2 fuel2 idx (by omega) (by omega)]
  | succ n ih =>
    intro fuel2 idx h1 h2
    cases fuel2 with
    | zero =>
      rw [show compareLoop parts1 parts2 idx 0 = 0 from rfl,
        compareLoop_zero_of_ge parts1 parts2 (n + 1) idx (by omega) (by omega)]
    | succ m =>
      simp only [compareLoop]
      rcases Nat.lt_trichotomy (parts1.getD idx 0) (parts2.getD idx 0) with hc | hc | hc
      · simp only [if_pos hc]
      · simp only [hc, lt_irrefl, if_false]
        exact ih m (idx + 1) (by omega) (by omega)
      · have hnot : ¬parts1.getD idx 0 < parts2.getD idx 0 := by omega
        simp only [if_neg hnot, if_pos hc]

/-- Swapping the two lists negates the loop's value. -/
theorem compareLoop_neg (parts1 parts2 : List Nat) :
    ∀ (fuel idx : Nat),
      compareLoop parts2 parts1 idx fuel = -(compareLoop parts1 parts2 idx fuel) := by
  intro fuel
  induction fuel with
  | zero => intro idx; simp [compareLoop]
  | succ n ih =>
    intro idx
    simp only [compareLoop]
    rcases Nat.lt_trichotomy (parts1.getD idx 0) (parts2.getD idx 0) with hc | hc | hc
    · have hnot : ¬parts2.getD idx 0 < parts1.getD idx 0 := by omega
      simp only [if_neg hnot, if_pos hc]
      decide
    · simp only [hc, lt_irrefl, if_false]
      exact ih (idx + 1)
    · have hnot : ¬parts1.getD idx 0 < parts2.getD idx 0 := by omega
      simp only [if_pos hc, if_neg hnot]

/-- Nonpositivity of the loop is transitive (at a common fuel). -/
theorem compareLoop_trans :
    ∀ (fuel idx : Nat) (parts1 parts2 parts3 : List Nat),
      compareLoop parts1 parts2 idx fuel ≤ 0 →
      compareLoop parts2 parts3 idx fuel ≤ 0 →
      compareLoop parts1 parts3 idx fuel ≤ 0 := by
  intro fuel
  induction fuel with
  | zero => intro idx p1 p2 p3 _ _; simp [compareLoop]
  | succ n ih =>
    intro idx p1 p2 p3 h1 h2
    simp only [compareLoop] at h1 h2 ⊢
    split_ifs at h1 h2 ⊢ <;> first
      | omega
      | exact ih (idx + 1) p1 p2 p3 h1 h2

/-- `compareVersions` at any sufficient fuel. -/
theorem compareVersions_eq_fuel (v1 v2 : String) (fuel : Nat)
    (h : max (versionParts v1).length (versionParts v2).length ≤ fuel) :
    compareVersions v1 v2 = compareLoop (versionParts v1) (versionParts v2) 0 fuel := by
  unfold compareVersions
  exact compareLoop_fuel_ext _ _ _ fuel 0 (by omega) (by omega)

/-- `vle` is total. -/
theorem vle_total (a b : String) : vle a b ∨ vle b a := by
  unfold vle
  have hneg : compareVersions b a = -(compareVersions a b) := by
    unfold compareVersions
    rw [Nat.max_comm]
    exact compareLoop_neg _ _ _ 0
  omega

/-- `vle` is reflexive. -/
theorem vle_refl (a : String) : vle a a := by
  unfold vle compareVersions
  rw [compareLoop_eq_of_all_eq _ _ (fun _ => rfl)]

/-- `vle` is transitive. -/
theorem vle_trans (a b c : String) (h1 : vle a b) (h2 : vle b c) : vle a c := by
  unfold vle at h1 h2 ⊢
  set fa := (versionParts a).length with hfa
  set fb := (versionParts b).length with hfb
  set fc := (versionParts c).length with hfc
  have hF : max fa (max fb fc) = max fa (max fb fc) := rfl
  rw [compareVersions_eq_fuel a b (max fa (max fb fc)) (by omega)] at h1
  rw [compareVersions_eq_fuel b c (max fa (max fb fc)) (by omega)] at h2
  rw [compareVersions_eq_fuel a c (max fa (max fb fc)) (by omega)]
  exact compareLoop_trans _ 0 _ _ _ h1 h2

/-- C8: `compareVersions` strips a leading v and the hyphenated variant,
splits on dots, reads each part numerically with missing positions as 0,
and the first unequal position decides the order; in particular the three
specified comparisons hold. -/
theorem compareVersions_componentwise :
    compareVersions "1.10.0" "1.9.0" = 1 ∧
    compareVersions "1.2.3" "1.2.3" = 0 ∧
    compareVersions "2.0.0" "1.9.9" = 1 ∧
    (∀ v1 v2 : String,
      ((∀ i, (versionParts v1).getD i 0 = (versionParts v2).getD i 0) →
        compareVersions v1 v2 = 0) ∧
      (∀ i, (versionParts v1).getD i 0 ≠ (versionParts v2).getD i 0 →
        (∀ j, j < i → (versionParts v1).getD j 0 = (versionParts v2).getD j 0) →
        compareVersions v1 v2 =
          if (versionParts v1).getD i 0 < (versionParts v2).getD i 0 then -1 else 1)) := by
  refine ⟨by decide, by decide, by decide, ?_⟩
  intro v1 v2
  constructor
  · intro h
    unfold compareVersions
    exact compareLoop_eq_of_all_eq _ _ h _ 0
  · intro i hne hbefore
    have hi : i < max (versionParts v1).length (versionParts v2).length := by
      by_contra hge
      push_neg at hge
      rw [List.getD_eq_default _ _ (by omega), List.getD_eq_default _ _ (by omega)] at hne
      exact hne rfl
    unfold compareVersions
    exact compareLoop_first_diff _ _ i hne hbefore _ 0 (by omega) (by omega)

/-- C7: `CheckExists` returns (true, nil) exactly when the registry returns
the image; (false, nil) exactly when the failure is an HTTP 404 transport
response; and (false, error) in every other case — a failed reference
parse, or a get failure that is not a 404 transport response (auth,
network, ...). -/
theorem checkExists_spec (parse : String → Except String Unit)
    (get : String → Except GetErr Unit) (ref : String) :
    (checkExists parse get ref = (true, none) ↔
      (parse ref = .ok () ∧ get ref = .ok ())) ∧
    (checkExists parse get ref = (false, none) ↔
      (parse ref = .ok () ∧ ∃ m, get ref = .error (GetErr.transport 404 m))) ∧
    ((∃ msg, checkExists parse get ref = (false, some msg)) ↔
      ((∃ e, parse ref = .error e) ∨
        (parse ref = .ok () ∧ ∃ err, get ref = .error err ∧ isNotFound err = false))) := by
  unfold checkExists
  cases hp : parse ref with
  | error e => simp [hp]
  | ok u =>
    cases u
    cases hg : get ref with
    | ok v => cases v; simp [hg]
    | error err =>
      cases err with
      | transport status msg =>
        by_cases hs : status = 404
        · subst hs; simp [isNotFound]
        · simp [isNotFound, hs, Nat.ne_of_beq_eq_false, beq_iff_eq]
      | other msg => simp [isNotFound]

/-- C6: a Scan builds successfully with an image that has no digest (digest
validation is deliberately absent from Build), and at execution time the
digest guard decides: an empty digest yields the dedicated must-have-digest
error, a populated digest lets execution proceed to the scan body. -/
theorem scanBuild_execute_digest_rule (image : SImage)
    (checks : List (String × String)) (fmt : String) (w : ScanWorld) :
    ∃ s, scanBuild { image := some image, severityChecks := checks, format := fmt } =
        .ok s ∧
      s.image = image ∧
      (s.image.digest = "" →
        scanExecute w s = .error (errScanMustHaveDigest ++ ": " ++ s.image.name)) ∧
      (s.image.digest ≠ "" → scanExecute w s = scanRun w s) := by
  refine ⟨_, rfl, rfl, ?_, ?_⟩
  · intro h
    simp at h
    simp [scanExecute, h]
  · intro h
    simp at h
    simp [scanExecute, h]

/-- Unfolding `runStage` at a resource that succeeds. -/
theorem runStage_cons_ok (r : PResource) (l : List PResource) (u : Unit)
    (hr : r.run = Except.ok u) :
    runStage (r :: l) = ((runStage l).1, r.name :: (runStage l).2) := by
  rcases h : runStage l with ⟨res, tr⟩
  simp [runStage, hr, h]

/-- Unfolding `runStage` at a resource that fails. -/
theorem runStage_cons_err (r : PResource) (l : List PResource) (e : String)
    (hr : r.run = Except.error e) :
    runStage (r :: l) = (Except.error e, [r.name]) := by
  simp [runStage, hr]

/-- Running one stage over a concatenation: the second part runs only when
the first part finishes without error. -/
theorem runStage_append (l1 l2 : List PResource) :
    runStage (l1 ++ l2) =
      (match runStage l1 with
       | (Except.error e, t) => (Except.error e, t)
       | (Except.ok _, t) => ((runStage l2).1, t ++ (runStage l2).2)) := by
  induction l1 with
  | nil => simp [runStage]
  | cons r rest ih =>
    cases hr : r.run with
    | error e => rw [List.cons_append, runStage_cons_err r _ e hr, runStage_cons_err r _ e hr]
    | ok u =>
      rw [List.cons_append, runStage_cons_ok r _ u hr, runStage_cons_ok r _ u hr, ih]
      rcases hrest : runStage rest with ⟨res, tr⟩
      cases res with
      | error e => simp
      | ok v => simp

/-- A stage that returns an error ran exactly an all-ok prelude and then the
failing resource, and the error is that resource's. -/
theorem runStage_error (l : List PResource) (e : String)
    (h : (runStage l).1 = Except.error e) :
    ∃ firstPart r rest, l = firstPart ++ r :: rest ∧
      (∀ x ∈ firstPart, x.run = Except.ok ()) ∧ r.run = Except.error e ∧
      (runStage l).2 = firstPart.map PResource.name ++ [r.name] := by
  induction l with
  | nil => simp [runStage] at h
  | cons r0 rest ih =>
    cases hr : r0.run with
    | error e0 =>
      have : (runStage (r0 :: rest)) = (Except.error e0, [r0.name]) := by
        simp [runStage, hr]
      rw [this] at h
      cases h
      exact ⟨[], r0, rest, by simp, by simp, hr, by simp [this]⟩
    | ok u =>
      cases u
      have hstep : runStage (r0 :: rest) = ((runStage rest).1, r0.name :: (runStage rest).2) := by
        simp [runStage, hr]
      rw [hstep] at h
      obtain ⟨fp, r, rest2, hsplit, hok, hrun, htrace⟩ := ih h
      exact ⟨r0 :: fp, r, rest2, by simp [hsplit], by
        intro x hx
        rcases List.mem_cons.mp hx with h1 | h2
        · rw [h1]; exact hr
        · exact hok x h2, hrun, by simp [hstep, htrace]⟩

/-- `Plan.Execute` equals one sequential first-error run over all resources
in the fixed five-stage order. -/
theorem planExecute_eq_runStage (plan : Plan) :
    planExecute plan = runStage (allResources plan) := by
  unfold planExecute allResources
  simp only [runStage_append]
  rcases h1 : runStage plan.versionChecks with ⟨r1, t1⟩
  cases r1 with
  | error e => rfl
  | ok u1 =>
    rcases h2 : runStage plan.syncs with ⟨r2, t2⟩
    cases r2 with
    | error e => simp [h2]
    | ok u2 =>
      rcases h3 : runStage plan.builds with ⟨r3, t3⟩
      cases r3 with
      | error e => simp [h2, h3]
      | ok u3 =>
        rcases h4 : runStage plan.scans with ⟨r4, t4⟩
        cases r4 with
        | error e => simp [h2, h3, h4]
        | ok u4 =>
          rcases h5 : runStage plan.audits with ⟨r5, t5⟩
          cases r5 with
          | error e => simp [h2, h3, h4, h5]
          | ok u5 => simp [h2, h3, h4, h5]

/-- C3: Execute runs version checks, then syncs, then builds, then scans,
then audits — one sequential pass over `allResources`, each stage in
registration order — and when a resource fails, Execute returns that
resource's error, every resource before it ran successfully, and the
resources after it (same stage or later) never ran: the executed list is
exactly the names up to and including the failing resource. -/
theorem planExecute_spec (plan : Plan) :
    planExecute plan = runStage (allResources plan) ∧
    ∀ e, (planExecute plan).1 = Except.error e →
      ∃ firstPart r rest, allResources plan = firstPart ++ r :: rest ∧
        (∀ x ∈ firstPart, x.run = Except.ok ()) ∧ r.run = Except.error e ∧
        (planExecute plan).2 = firstPart.map PResource.name ++ [r.name] := by
  refine ⟨planExecute_eq_runStage plan, ?_⟩
  intro e h
  rw [planExecute_eq_runStage plan] at h ⊢
  exact runStage_error _ e h

/-- A platform-digest enumeration with no retained platform makes the loop
a no-op: nothing is copied, nothing fails. -/
theorem syncPlatformsLoop_no_retained {Img : Type} (w : RegistryWorld Img)
    (src dst : String) :
    ∀ (pairs : List (String × String)) (acc : List (String × Img)),
      retainedOf pairs = [] →
      syncPlatformsLoop w src dst pairs acc = (.ok acc, []) := by
  intro pairs
  induction pairs with
  | nil => intro acc _; rfl
  | cons pr rest ih =>
    intro acc h
    rcases pr with ⟨platform, dig⟩
    rw [retainedOf, List.filter_cons] at h
    cases hs : isSupported platform with
    | true => rw [hs] at h; simp at h
    | false =>
      rw [hs] at h
      simp only [Bool.false_eq_true, if_false] at h
      unfold syncPlatformsLoop
      rw [hs]
      simp only [Bool.false_eq_true, if_false]
      exact ih acc h

/-- Pushing an empty platform map writes and digests the empty index. -/
theorem pushManifestList_empty {Img : Type} (w : RegistryWorld Img) (dst : String)
    (hwrite : w.writeIndex dst [] = Except.ok ()) :
    pushManifestList w dst ([] : List (String × Img)) =
      (.ok (w.indexDigest []), [Op.writeIndex dst]) := by
  unfold pushManifestList manifestIndex
  simp [sortStrings, manifestIndexLoop, hwrite, List.insertionSort]

/-- C9: a multi-platform sync whose source index holds no supported platform
does not fail for that reason — it pushes an empty manifest list at the
destination and returns that degenerate index's locally computed digest,
copying no platform image at all. -/
theorem syncMultiPlatform_degenerate {Img : Type} (w : RegistryWorld Img)
    (src dst : String) (pd : List (String × String))
    (hpd : w.getPlatformDigests src = .ok pd)
    (hnone : retainedOf pd = [])
    (hwrite : w.writeIndex dst [] = Except.ok ()) :
    syncMultiPlatform w src dst =
      (.ok (w.indexDigest []), [Op.getPlatformDigests src, Op.writeIndex dst]) ∧
    (∀ s g d2, Op.copyPlatformImage s g d2 ∉ (syncMultiPlatform w src dst).2) := by
  have hloop := syncPlatformsLoop_no_retained w src dst pd [] hnone
  have hpush := pushManifestList_empty w dst hwrite
  have hmain : syncMultiPlatform w src dst =
      (.ok (w.indexDigest []), [Op.getPlatformDigests src, Op.writeIndex dst]) := by
    unfold syncMultiPlatform
    rw [hpd]
    simp [hloop, hpush]
  refine ⟨hmain, ?_⟩
  intro s g d2
  rw [hmain]
  simp

/-- Witness for C9 at a concrete world whose only platform is unsupported. -/
theorem syncMultiPlatform_degenerate_witness :
    syncMultiPlatform w9 "src.example/app:v1" "dest.example/app:v1" =
      (.ok (w9.indexDigest []),
       [Op.getPlatformDigests "src.example/app:v1", Op.writeIndex "dest.example/app:v1"]) ∧
    (∀ s g d2, Op.copyPlatformImage s g d2 ∉
      (syncMultiPlatform w9 "src.example/app:v1" "dest.example/app:v1").2) :=
  syncMultiPlatform_degenerate w9 "src.example/app:v1" "dest.example/app:v1"
    [("windows/amd64", "sha256:c3")] (by decide) (by decide) (by decide)

/-- Unfolding the platform loop at an unsupported platform: it is skipped,
with no operation and no error. -/
theorem syncPlatformsLoop_cons_skip {Img : Type} (w : RegistryWorld Img)
    (src dst platform dig : String) (rest : List (String × String))
    (acc : List (String × Img)) (hs : isSupported platform = false) :
    syncPlatformsLoop w src dst ((platform, dig) :: rest) acc =
      syncPlatformsLoop w src dst rest acc := by
  simp [syncPlatformsLoop, hs]

/-- Unfolding the platform loop at a supported platform whose copy fails. -/
theorem syncPlatformsLoop_cons_copyErr {Img : Type} (w : RegistryWorld Img)
    (src dst platform dig : String) (rest : List (String × String))
    (acc : List (String × Img)) (e : String) (hs : isSupported platform = true)
    (hcopy : w.copyPlatformImage (stripTag src) dig (platformDst dst platform) =
      .error e) :
    syncPlatformsLoop w src dst ((platform, dig) :: rest) acc =
      (.error ("failed to copy platform " ++ platform ++ ": " ++ e),
       [Op.copyPlatformImage (stripTag src) dig (platformDst dst platform)]) := by
  simp [syncPlatformsLoop, hs, hcopy]

/-- Unfolding the platform loop at a supported platform whose copy succeeds
but whose fetch-back fails. -/
theorem syncPlatformsLoop_cons_fetchErr {Img : Type} (w : RegistryWorld Img)
    (src dst platform dig : String) (rest : List (String × String))
    (acc : List (String × Img)) (u : Unit) (e : String)
    (hs : isSupported platform = true)
    (hcopy : w.copyPlatformImage (stripTag src) dig (platformDst dst platform) = .ok u)
    (hfetch : w.getImageHandle (platformDst dst platform) = .error e) :
    syncPlatformsLoop w src dst ((platform, dig) :: rest) acc =
      (.error ("failed to fetch pushed image for platform " ++ platform ++ ": " ++ e),
       [Op.copyPlatformImage (stripTag src) dig (platformDst dst platform),
        Op.getImageHandle (platformDst dst platform)]) := by
  simp [syncPlatformsLoop, hs, hcopy, hfetch]

/-- Unfolding the platform loop at a supported platform whose copy and
fetch-back both succeed. -/
theorem syncPlatformsLoop_cons_ok {Img : Type} (w : RegistryWorld Img)
    (src dst platform dig : String) (rest : List (String × String))
    (acc : List (String × Img)) (u : Unit) (img : Img)
    (hs : isSupported platform = true)
    (hcopy : w.copyPlatformImage (stripTag src) dig (platformDst dst platform) = .ok u)
    (hfetch : w.getImageHandle (platformDst dst platform) = .ok img) :
    syncPlatformsLoop w src dst ((platform, dig) :: rest) acc =
      ((syncPlatformsLoop w src dst rest (acc ++ [(platform, img)])).1,
       Op.copyPlatformImage (stripTag src) dig (platformDst dst platform) ::
         Op.getImageHandle (platformDst dst platform) ::
         (syncPlatformsLoop w src dst rest (acc ++ [(platform, img)])).2) := by
  rcases hrec : syncPlatformsLoop w src dst rest (acc ++ [(platform, img)]) with ⟨res, tr⟩
  simp [syncPlatformsLoop, hs, hcopy, hfetch, hrec]

/-- The platform loop never invokes `GetDigest`. -/
theorem syncPlatformsLoop_no_getDigest {Img : Type} (w : RegistryWorld Img)
    (src dst : String) :
    ∀ (pairs : List (String × String)) (acc : List (String × Img)) (r : String),
      Op.getDigest r ∉ (syncPlatformsLoop w src dst pairs acc).2 := by
  intro pairs
  induction pairs with
  | nil => intro acc r; simp [syncPlatformsLoop]
  | cons pr rest ih =>
    intro acc r
    rcases pr with ⟨platform, dig⟩
    cases hs : isSupported platform with
    | false =>
      rw [syncPlatformsLoop_cons_skip w src dst platform dig rest acc hs]
      exact ih acc r
    | true =>
      cases hcopy : w.copyPlatformImage (stripTag src) dig (platformDst dst platform) with
      | error e =>
        rw [syncPlatformsLoop_cons_copyErr w src dst platform dig rest acc e hs hcopy]
        simp
      | ok u =>
        cases hfetch : w.getImageHandle (platformDst dst platform) with
        | error e =>
          rw [syncPlatformsLoop_cons_fetchErr w src dst platform dig rest acc u e hs hcopy hfetch]
          simp
        | ok img =>
          rw [syncPlatformsLoop_cons_ok w src dst platform dig rest acc u img hs hcopy hfetch]
          have := ih (acc ++ [(platform, img)]) r
          simp only [List.mem_cons, not_or] at this ⊢
          exact ⟨by simp, by simp, this⟩

/-- `PushManifestList` never invokes `GetDigest`: the digest it returns is
computed from the constructed index. -/
theorem pushManifestList_no_getDigest {Img : Type} (w : RegistryWorld Img)
    (ref : String) (pim : List (String × Img)) (r : String) :
    Op.getDigest r ∉ (pushManifestList w ref pim).2 := by
  unfold pushManifestList
  cases manifestIndex pim with
  | none => simp
  | some idx =>
    cases hw : w.writeIndex ref idx with
    | error e => simp [hw]
    | ok u => simp [hw]

/-- Every platform-image pair the loop returns beyond its accumulator was
fetched back from the destination's suffixed reference. -/
theorem syncPlatformsLoop_ok_fetched {Img : Type} (w : RegistryWorld Img)
    (src dst : String) :
    ∀ (pairs : List (String × String)) (acc pim : List (String × Img)) (tr : List Op),
      syncPlatformsLoop w src dst pairs acc = (.ok pim, tr) →
      ∀ pi ∈ pim, pi ∈ acc ∨ w.getImageHandle (platformDst dst pi.1) = .ok pi.2 := by
  intro pairs
  induction pairs with
  | nil =>
    intro acc pim tr h pi hpi
    unfold syncPlatformsLoop at h
    cases h
    exact Or.inl hpi
  | cons pr rest ih =>
    intro acc pim tr h pi hpi
    rcases pr with ⟨platform, dig⟩
    cases hs : isSupported platform with
    | false =>
      rw [syncPlatformsLoop_cons_skip w src dst platform dig rest acc hs] at h
      exact ih acc pim tr h pi hpi
    | true =>
      cases hcopy : w.copyPlatformImage (stripTag src) dig (platformDst dst platform) with
      | error e =>
        rw [syncPlatformsLoop_cons_copyErr w src dst platform dig rest acc e hs hcopy] at h
        cases h
      | ok u =>
        cases hfetch : w.getImageHandle (platformDst dst platform) with
        | error e =>
          rw [syncPlatformsLoop_cons_fetchErr w src dst platform dig rest acc u e hs hcopy hfetch] at h
          cases h
        | ok img =>
          rw [syncPlatformsLoop_cons_ok w src dst platform dig rest acc u img hs hcopy hfetch] at h
          rcases hrec : syncPlatformsLoop w src dst rest (acc ++ [(platform, img)]) with ⟨res, tr2⟩
          rw [hrec] at h
          simp only [Prod.mk.injEq] at h
          rcases h with ⟨hres, htr⟩
          rcases ih (acc ++ [(platform, img)]) pim tr2 (by rw [hrec, hres]) pi hpi with hacc | hfetched
          · rcases List.mem_append.mp hacc with h1 | h2
            · exact Or.inl h1
            · simp at h2
              rw [h2]
              exact Or.inr hfetch
          · exact Or.inr hfetched

/-- C2: a successful `SyncImage` never obtained its digest from the
registry's `GetDigest` (the trace holds no such call), and the digest is
derived from content fetched back from the destination after the push: on
the single-platform path it is the locally computed digest of the image
handle fetched from the destination after `CopyImage`; on the
multi-platform path it is the locally computed digest of the constructed
manifest list, each of whose platform images was fetched back from the
destination. -/
theorem syncImage_digest_provenance {Img : Type} (w : RegistryWorld Img)
    (src dst d : String) (tr : List Op)
    (h : syncImage w src dst = (.ok d, tr)) :
    (∀ r, Op.getDigest r ∉ tr) ∧
    ((w.copyImage src dst = .ok () ∧
      ∃ img, w.getImageHandle dst = .ok img ∧ d = w.imgDigest img) ∨
     (∃ pim idx, manifestIndex pim = some idx ∧ d = w.indexDigest idx ∧
       ∀ pi ∈ pim, w.getImageHandle (platformDst dst pi.1) = .ok pi.2)) := by
  unfold syncImage at h
  cases hgi : w.getImage src with
  | error e => rw [hgi] at h; cases h
  | ok isIndex =>
    rw [hgi] at h
    cases isIndex with
    | false =>
      simp only [Bool.false_eq_true, if_false] at h
      unfold syncSinglePlatform at h
      cases hcopy : w.copyImage src dst with
      | error e => rw [hcopy] at h; cases h
      | ok u =>
        rw [hcopy] at h
        cases hfetch : w.getImageHandle dst with
        | error e => rw [hfetch] at h; cases h
        | ok img =>
          rw [hfetch] at h
          cases h
          cases u
          refine ⟨by intro r; simp, Or.inl ⟨rfl, img, rfl, rfl⟩⟩
    | true =>
      simp only [if_true] at h
      unfold syncMultiPlatform at h
      cases hpd : w.getPlatformDigests src with
      | error e => rw [hpd] at h; cases h
      | ok pd =>
        rw [hpd] at h
        dsimp only at h
        rcases hloop : syncPlatformsLoop w src dst pd [] with ⟨res, ltr⟩
        rw [hloop] at h
        cases res with
        | error e => simp at h
        | ok pim =>
          dsimp only at h
          rcases hpush : pushManifestList w dst pim with ⟨pres, ptr⟩
          rw [hpush] at h
          cases pres with
          | error e => simp at h
          | ok dg =>
            dsimp only at h
            cases h
            have hfetched := syncPlatformsLoop_ok_fetched w src dst pd [] pim ltr hloop
            have hnold : ∀ r, Op.getDigest r ∉ ltr := by
              intro r
              have := syncPlatformsLoop_no_getDigest w src dst pd [] r
              rw [hloop] at this
              simpa using this
            have hnopt : ∀ r, Op.getDigest r ∉ ptr := by
              intro r
              have := pushManifestList_no_getDigest w dst pim r
              rw [hpush] at this
              simpa using this
            constructor
            · intro r
              simp only [List.mem_cons, List.mem_append]
              rintro (hc | hc | hc | hc)
              · cases hc
              · cases hc
              · exact hnold r hc
              · exact hnopt r hc
            · right
              unfold pushManifestList at hpush
              cases hmi : manifestIndex pim with
              | none => rw [hmi] at hpush; simp at hpush
              | some idx =>
                rw [hmi] at hpush
                dsimp only at hpush
                cases hw : w.writeIndex dst idx with
                | error e => rw [hw] at hpush; simp at hpush
                | ok u =>
                  rw [hw] at hpush
                  dsimp only at hpush
                  cases hpush
                  refine ⟨pim, idx, hmi, rfl, ?_⟩
                  intro pi hpi
                  rcases hfetched pi hpi with hacc | hf
                  · cases hacc
                  · exact hf

/-- Swapping the arguments of `compareVersions` negates it. -/
theorem compareVersions_neg (x y : String) :
    compareVersions y x = -(compareVersions x y) := by
  unfold compareVersions
  rw [Nat.max_comm]
  exact compareLoop_neg _ _ _ 0

/-- In a `vle`-sorted list every element is `vle` the last element. -/
theorem sorted_vle_getLast :
    ∀ (l : List String), l.Sorted vle → ∀ (h : l ≠ []) (x : String), x ∈ l →
      vle x (l.getLast h) := by
  intro l
  induction l with
  | nil => intro _ h; exact absurd rfl h
  | cons a t ih =>
    intro hs h x hm
    cases t with
    | nil =>
      simp at hm
      subst hm
      simpa [List.getLast] using vle_refl x
    | cons b t2 =>
      rw [List.getLast_cons (by simp)]
      rcases List.mem_cons.mp hm with h1 | h2
      · subst h1
        exact List.rel_of_sorted_cons hs _ (List.getLast_mem _)
      · exact ih (List.sorted_cons.mp hs).2 (by simp) x h2

/-- C10: when none of the listed tags passes the version filter,
`CheckVersion` returns the no-valid-versions error; and every successful
result's LatestVersion is one of the retained tags, maximal among them
under `compareVersions`. -/
theorem checkVersion_latest (w : VersionWorld)
    (imageRef currentVersion variant : String) (tags : List String)
    (htags : w.listTags imageRef = .ok tags) :
    let var := if variant = "" then (extractVariant currentVersion).2 else variant
    let versions := tags.filter (fun tag => isValidVersion tag var)
    (versions = [] →
      checkVersion w imageRef currentVersion variant =
        .error ("no valid versions found: " ++ imageRef)) ∧
    (∀ info, checkVersion w imageRef currentVersion variant = .ok info →
      info.latestVersion ∈ versions ∧
      ∀ t ∈ versions, 0 ≤ compareVersions info.latestVersion t) := by
  intro var versions
  constructor
  · intro hempty
    unfold checkVersion
    rw [htags]
    dsimp only
    rw [if_pos hempty]
  · intro info hinfo
    unfold checkVersion at hinfo
    rw [htags] at hinfo
    dsimp only at hinfo
    by_cases hempty : versions = []
    · rw [if_pos hempty] at hinfo
      cases hinfo
    · rw [if_neg hempty] at hinfo
      injection hinfo with hinfo
      subst hinfo
      have hsne : versions.insertionSort vle ≠ [] := by
        intro hnil
        apply hempty
        have hperm := List.perm_insertionSort vle versions
        rw [hnil] at hperm
        exact (hperm.symm).eq_nil
      have hlast : (versions.insertionSort vle).getLastD "" =
          (versions.insertionSort vle).getLast hsne := by
        rw [List.getLastD_eq_getLast?, List.getLast?_eq_getLast _ hsne]
        rfl
      haveI : IsTotal String vle := ⟨vle_total⟩
      haveI : IsTrans String vle := ⟨vle_trans⟩
      have hsorted := List.sorted_insertionSort vle versions
      constructor
      · dsimp only
        rw [hlast]
        exact (List.mem_insertionSort vle).mp (List.getLast_mem hsne)
      · intro t ht
        dsimp only
        rw [hlast]
        have hv := sorted_vle_getLast _ hsorted hsne t
          ((List.mem_insertionSort vle).mpr ht)
        have hv2 : compareVersions t ((versions.insertionSort vle).getLast hsne) ≤ 0 := hv
        rw [compareVersions_neg t ((versions.insertionSort vle).getLast hsne)]
        omega

/-- Witness for C10 at a concrete tag list. -/
theorem checkVersion_latest_witness :
    let var := if "" = "" then (extractVariant "1.9.0").2 else ""
    let versions := ["1.9.0", "1.10.0", "1.10.0-beta", "latest", "nightly"].filter
      (fun tag => isValidVersion tag var)
    ((versions = [] →
      checkVersion w10 "timberio/vector" "1.9.0" "" =
        .error ("no valid versions found: " ++ "timberio/vector")) ∧
    (∀ info, checkVersion w10 "timberio/vector" "1.9.0" "" = .ok info →
      info.latestVersion ∈ versions ∧
      ∀ t ∈ versions, 0 ≤ compareVersions info.latestVersion t)) :=
  checkVersion_latest w10 "timberio/vector" "1.9.0" ""
    ["1.9.0", "1.10.0", "1.10.0-beta", "latest", "nightly"] (by decide)

/-- A key of the association list has a lookup value. -/
theorem lookupImg_of_mem_keys {Img : Type} (k : String) :
    ∀ l : List (String × Img), k ∈ l.map Prod.fst → ∃ v, lookupImg k l = some v := by
  intro l
  induction l with
  | nil => intro h; simp at h
  | cons pr rest ih =>
    intro h
    by_cases hk : k = pr.1
    · exact ⟨pr.2, by rcases pr with ⟨k2, v⟩; simp [lookupImg, hk]⟩
    · have : k ∈ rest.map Prod.fst := by
        rcases List.mem_cons.mp h with h1 | h2
        · exact absurd h1 hk
        · exact h2
      obtain ⟨v, hv⟩ := ih this
      exact ⟨v, by rcases pr with ⟨k2, v2⟩; simp [lookupImg, hk, hv]⟩

/-- A supported platform splits into OS and architecture, and the split
parts rebuild the platform string. -/
theorem supported_split (p : String) (hs : isSupported p = true) :
    ∃ rest, (splitPlatform p).2 = some rest ∧ (splitPlatform p).1 ++ "/" ++ rest = p := by
  have hmem : p ∈ supportedPlatforms := by
    exact List.mem_of_elem_eq_true hs
  rcases List.mem_cons.mp hmem with h1 | h2
  · subst h1; exact ⟨"amd64", by decide, by decide⟩
  · rcases List.mem_cons.mp h2 with h1 | h3
    · subst h1; exact ⟨"arm64", by decide, by decide⟩
    · simp at h3

/-- Over platforms that are present in the map and carry an architecture,
the append loop builds a descriptor per platform, in order, and the
descriptor's OS and architecture rebuild the platform. -/
theorem manifestIndexLoop_total {Img : Type} (pim : List (String × Img)) :
    ∀ platforms : List String,
      (∀ p ∈ platforms, p ∈ pim.map Prod.fst) →
      (∀ p ∈ platforms, ∃ rest, (splitPlatform p).2 = some rest ∧
        (splitPlatform p).1 ++ "/" ++ rest = p) →
      ∃ idx, manifestIndexLoop pim platforms = some idx ∧
        idx.map (fun dsc => dsc.os ++ "/" ++ dsc.arch) = platforms := by
  intro platforms
  induction platforms with
  | nil => intro _ _; exact ⟨[], rfl, rfl⟩
  | cons p rest ih =>
    intro hmem hsplit
    obtain ⟨v, hv⟩ := lookupImg_of_mem_keys p pim (hmem p (by simp))
    obtain ⟨archRest, hsp, hbuild⟩ := hsplit p (by simp)
    obtain ⟨idx, hidx, hmap⟩ := ih (fun q hq => hmem q (by simp [hq]))
      (fun q hq => hsplit q (by simp [hq]))
    refine ⟨{ os := (splitPlatform p).1, arch := archRest, img := v } :: idx, ?_, ?_⟩
    · unfold manifestIndexLoop
      rw [hv]
      rcases hshape : splitPlatform p with ⟨osPart, archOpt⟩
      rw [hshape] at hsp
      cases archOpt with
      | none => simp at hsp
      | some a =>
        simp at hsp
        subst hsp
        rw [hidx]
        simp [hshape]
    · simp [hmap, hbuild]

/-- When every retained copy and fetch succeeds, the platform loop returns
the collected platform-image map and the per-platform trace. -/
theorem syncPlatformsLoop_spec {Img : Type} (w : RegistryWorld Img) (src dst : String) :
    ∀ (pairs : List (String × String)) (acc : List (String × Img)),
      (∀ pr ∈ retainedOf pairs,
        (∃ u, w.copyPlatformImage (stripTag src) pr.2 (platformDst dst pr.1) = .ok u) ∧
        ∃ img, w.getImageHandle (platformDst dst pr.1) = .ok img) →
      syncPlatformsLoop w src dst pairs acc =
        (.ok (acc ++ retainedImages w dst pairs), retainedTrace src dst pairs) := by
  intro pairs
  induction pairs with
  | nil => intro acc _; simp [syncPlatformsLoop, retainedImages, retainedOf, retainedTrace]
  | cons pr rest ih =>
    intro acc hops
    rcases pr with ⟨platform, dig⟩
    cases hs : isSupported platform with
    | false =>
      rw [syncPlatformsLoop_cons_skip w src dst platform dig rest acc hs]
      have hrest : retainedOf ((platform, dig) :: rest) = retainedOf rest := by
        simp [retainedOf, List.filter_cons, hs]
      rw [hrest] at hops
      rw [ih acc hops]
      have h1 : retainedImages w dst ((platform, dig) :: rest) = retainedImages w dst rest := by
        simp [retainedImages, hrest]
      have h2 : retainedTrace src dst ((platform, dig) :: rest) = retainedTrace src dst rest := by
        simp [retainedTrace, hrest]
      rw [h1, h2]
    | true =>
      have hhead : (platform, dig) ∈ retainedOf ((platform, dig) :: rest) := by
        simp [retainedOf, List.filter_cons, hs]
      obtain ⟨⟨u, hcopy⟩, img, hfetch⟩ := hops (platform, dig) hhead
      rw [syncPlatformsLoop_cons_ok w src dst platform dig rest acc u img hs hcopy hfetch]
      have hrest : retainedOf ((platform, dig) :: rest) =
          (platform, dig) :: retainedOf rest := by
        simp [retainedOf, List.filter_cons, hs]
      have hops2 : ∀ pr ∈ retainedOf rest,
          (∃ u2, w.copyPlatformImage (stripTag src) pr.2 (platformDst dst pr.1) = .ok u2) ∧
          ∃ img2, w.getImageHandle (platformDst dst pr.1) = .ok img2 := by
        intro pr hpr
        exact hops pr (by rw [hrest]; exact List.mem_cons_of_mem _ hpr)
      rw [ih (acc ++ [(platform, img)]) hops2]
      have h1 : retainedImages w dst ((platform, dig) :: rest) =
          (platform, img) :: retainedImages w dst rest := by
        simp [retainedImages, hrest, hfetch, Except.toOption]
      have h2 : retainedTrace src dst ((platform, dig) :: rest) =
          Op.copyPlatformImage (stripTag src) dig (platformDst dst platform) ::
            Op.getImageHandle (platformDst dst platform) :: retainedTrace src dst rest := by
        simp [retainedTrace, hrest]
      rw [h1, h2]
      simp

/-- When every retained fetch succeeds, the collected map's keys are the
retained platforms, in order. -/
theorem retainedImages_keys {Img : Type} (w : RegistryWorld Img) (dst : String)
    (pairs : List (String × String))
    (hfetch : ∀ pr ∈ retainedOf pairs, ∃ img, w.getImageHandle (platformDst dst pr.1) = .ok img) :
    (retainedImages w dst pairs).map Prod.fst = (retainedOf pairs).map Prod.fst := by
  unfold retainedImages
  suffices h : ∀ l : List (String × String),
      (∀ pr ∈ l, ∃ img, w.getImageHandle (platformDst dst pr.1) = Except.ok img) →
      (l.filterMap (fun pr => (w.getImageHandle (platformDst dst pr.1)).toOption.map
        (fun img => (pr.1, img)))).map Prod.fst = l.map Prod.fst by
    exact h (retainedOf pairs) hfetch
  intro l
  induction l with
  | nil => intro _; simp
  | cons pr rest ih =>
    intro hf
    obtain ⟨img, himg⟩ := hf pr (by simp)
    have ih2 := ih (fun q hq => hf q (List.mem_cons_of_mem _ hq))
    rw [List.filterMap_cons, himg]
    simp only [Except.toOption] at ih2 ⊢
    simp [ih2]

/-- An ok `Except` holds a value. -/
theorem exists_of_isOk {ε α : Type} (e : Except ε α) (h : e.isOk = true) :
    ∃ a, e = .ok a := by
  cases e with
  | error err => simp [Except.isOk, Except.toBool] at h
  | ok a => exact ⟨a, rfl⟩

/-- The copy operations of the retained trace are exactly the retained
platforms' copies: digest-addressed from the tag-stripped source to the
architecture-suffixed destination. -/
theorem retainedTrace_copy_mem (src dst : String) (pairs : List (String × String))
    (s g d2 : String) :
    Op.copyPlatformImage s g d2 ∈ retainedTrace src dst pairs ↔
      ∃ pr, pr ∈ retainedOf pairs ∧ s = stripTag src ∧ g = pr.2 ∧
        d2 = platformDst dst pr.1 := by
  unfold retainedTrace
  rw [List.mem_flatMap]
  constructor
  · rintro ⟨pr, hpr, hmem⟩
    rcases List.mem_cons.mp hmem with heq | hmem2
    · injection heq with h1 h2 h3
      exact ⟨pr, hpr, h1, h2, h3⟩
    · rcases List.mem_cons.mp hmem2 with heq | hbad
      · cases heq
      · simp at hbad
  · rintro ⟨pr, hpr, rfl, rfl, rfl⟩
    exact ⟨pr, hpr, by simp⟩

/-- `PushManifestList` at a well-formed platform map whose write succeeds. -/
theorem pushManifestList_ok {Img : Type} (w : RegistryWorld Img) (ref : String)
    (pim : List (String × Img)) (idx : List (Descriptor Img))
    (hmi : manifestIndex pim = some idx) (hw : w.writeIndex ref idx = .ok ()) :
    pushManifestList w ref pim = (.ok (w.indexDigest idx), [Op.writeIndex ref]) := by
  simp [pushManifestList, hmi, hw]

/-- C4: a multi-platform sync retains exactly the supported platforms
(linux/amd64 and linux/arm64) of the source enumeration — every other
platform is skipped and causes no failure; each retained platform's image
is copied by its own digest from the tag-stripped source reference to the
destination suffixed with its architecture token; and the manifest list
pushed at the unsuffixed destination references exactly the retained
platforms (lexicographically sorted), no more and no less. -/
theorem syncMultiPlatform_spec {Img : Type} (w : RegistryWorld Img) (src dst : String)
    (pd : List (String × String))
    (hpd : w.getPlatformDigests src = .ok pd)
    (hops : ∀ pr ∈ retainedOf pd,
      w.copyPlatformImage (stripTag src) pr.2 (platformDst dst pr.1) = .ok () ∧
      (w.getImageHandle (platformDst dst pr.1)).isOk = true)
    (hwrite : ∀ idx, manifestIndex (retainedImages w dst pd) = some idx →
      w.writeIndex dst idx = .ok ()) :
    ∃ idx, manifestIndex (retainedImages w dst pd) = some idx ∧
      syncMultiPlatform w src dst =
        (.ok (w.indexDigest idx),
         Op.getPlatformDigests src :: (retainedTrace src dst pd ++ [Op.writeIndex dst])) ∧
      idx.map (fun dsc => dsc.os ++ "/" ++ dsc.arch) =
        sortStrings ((retainedOf pd).map Prod.fst) ∧
      (retainedImages w dst pd).map Prod.fst = (retainedOf pd).map Prod.fst ∧
      (∀ pr ∈ retainedOf pd,
        Op.copyPlatformImage (stripTag src) pr.2 (platformDst dst pr.1) ∈
          (syncMultiPlatform w src dst).2) ∧
      (∀ s g d2, Op.copyPlatformImage s g d2 ∈ (syncMultiPlatform w src dst).2 →
        s = stripTag src ∧ ∃ pr, pr ∈ retainedOf pd ∧ g = pr.2 ∧
          d2 = platformDst dst pr.1) := by
  have hops2 : ∀ pr ∈ retainedOf pd,
      (∃ u, w.copyPlatformImage (stripTag src) pr.2 (platformDst dst pr.1) = .ok u) ∧
      ∃ img, w.getImageHandle (platformDst dst pr.1) = .ok img := by
    intro pr hpr
    obtain ⟨hcopy, hok⟩ := hops pr hpr
    exact ⟨⟨(), hcopy⟩, exists_of_isOk _ hok⟩
  have hfetchOk : ∀ pr ∈ retainedOf pd,
      ∃ img, w.getImageHandle (platformDst dst pr.1) = .ok img :=
    fun pr hpr => (hops2 pr hpr).2
  have hloop := syncPlatformsLoop_spec w src dst pd [] hops2
  rw [List.nil_append] at hloop
  have hkeys := retainedImages_keys w dst pd hfetchOk
  have hmem : ∀ p ∈ sortStrings ((retainedImages w dst pd).map Prod.fst),
      p ∈ (retainedImages w dst pd).map Prod.fst := by
    intro p hp
    simpa [sortStrings] using hp
  have hsplit : ∀ p ∈ sortStrings ((retainedImages w dst pd).map Prod.fst),
      ∃ rest, (splitPlatform p).2 = some rest ∧ (splitPlatform p).1 ++ "/" ++ rest = p := by
    intro p hp
    have hp2 : p ∈ (retainedOf pd).map Prod.fst := by rw [← hkeys]; exact hmem p hp
    obtain ⟨pr, hpr, hpeq⟩ := List.mem_map.mp hp2
    have hsup : isSupported pr.1 = true := by
      have := List.mem_filter.mp hpr
      exact this.2
    rw [← hpeq]
    exact supported_split pr.1 hsup
  obtain ⟨idx, hidx, hmap⟩ :=
    manifestIndexLoop_total (retainedImages w dst pd)
      (sortStrings ((retainedImages w dst pd).map Prod.fst)) hmem hsplit
  have hmi : manifestIndex (retainedImages w dst pd) = some idx := hidx
  have hwidx := hwrite idx hmi
  have hpush := pushManifestList_ok w dst (retainedImages w dst pd) idx hmi hwidx
  have hmulti : syncMultiPlatform w src dst =
      (.ok (w.indexDigest idx),
       Op.getPlatformDigests src :: (retainedTrace src dst pd ++ [Op.writeIndex dst])) := by
    unfold syncMultiPlatform
    rw [hpd]
    dsimp only
    rw [hloop]
    dsimp only
    rw [hpush]
  refine ⟨idx, hmi, hmulti, ?_, hkeys, ?_, ?_⟩
  · rw [hmap, hkeys]
  · intro pr hpr
    rw [hmulti]
    simp only [List.mem_cons, List.mem_append]
    right
    left
    exact (retainedTrace_copy_mem src dst pd _ _ _).mpr ⟨pr, hpr, rfl, rfl, rfl⟩
  · intro s g d2 hin
    rw [hmulti] at hin
    simp only [List.mem_cons, List.mem_append] at hin
    rcases hin with hc | hc | hc
    · cases hc
    · obtain ⟨pr, hpr, hs, hg, hd⟩ := (retainedTrace_copy_mem src dst pd s g d2).mp hc
      exact ⟨hs, pr, hpr, hg, hd⟩
    · rcases hc with hc2 | hc2
      · cases hc2
      · simp at hc2

/-- Witness for C4 at the spec's end-to-end example. -/
theorem syncMultiPlatform_spec_witness :
    ∃ idx, manifestIndex (retainedImages w4 "dest.example/app:v1" pd4) = some idx ∧
      syncMultiPlatform w4 "docker.io/lib/app@sha256:aaa" "dest.example/app:v1" =
        (.ok (w4.indexDigest idx),
         Op.getPlatformDigests "docker.io/lib/app@sha256:aaa" ::
           (retainedTrace "docker.io/lib/app@sha256:aaa" "dest.example/app:v1" pd4 ++
             [Op.writeIndex "dest.example/app:v1"])) ∧
      idx.map (fun dsc => dsc.os ++ "/" ++ dsc.arch) =
        sortStrings ((retainedOf pd4).map Prod.fst) ∧
      (retainedImages w4 "dest.example/app:v1" pd4).map Prod.fst =
        (retainedOf pd4).map Prod.fst ∧
      (∀ pr ∈ retainedOf pd4,
        Op.copyPlatformImage (stripTag "docker.io/lib/app@sha256:aaa") pr.2
            (platformDst "dest.example/app:v1" pr.1) ∈
          (syncMultiPlatform w4 "docker.io/lib/app@sha256:aaa" "dest.example/app:v1").2) ∧
      (∀ s g d2, Op.copyPlatformImage s g d2 ∈
          (syncMultiPlatform w4 "docker.io/lib/app@sha256:aaa" "dest.example/app:v1").2 →
        s = stripTag "docker.io/lib/app@sha256:aaa" ∧ ∃ pr, pr ∈ retainedOf pd4 ∧
          g = pr.2 ∧ d2 = platformDst "dest.example/app:v1" pr.1) :=
  syncMultiPlatform_spec w4 "docker.io/lib/app@sha256:aaa" "dest.example/app:v1" pd4
    (by decide) (by decide) (fun idx _ => rfl)

/-- Map reads agree across a permutation of an association list whose keys
are unique (the two lists describe the same Go map). -/
theorem lookupImg_perm {Img : Type} {l1 l2 : List (String × Img)} (h : l1.Perm l2)
    (hnd : (l1.map Prod.fst).Nodup) (k : String) :
    lookupImg k l1 = lookupImg k l2 := by
  induction h with
  | nil => rfl
  | cons x h2 ih =>
    rcases x with ⟨k2, v⟩
    simp only [List.map_cons, List.nodup_cons] at hnd
    by_cases hk : k = k2
    · simp [lookupImg, hk]
    · simp only [lookupImg, if_neg hk]
      exact ih hnd.2
  | swap x y l =>
    rcases x with ⟨kx, vx⟩
    rcases y with ⟨ky, vy⟩
    simp only [List.map_cons, List.nodup_cons, List.mem_cons] at hnd
    have hne : ky ≠ kx := fun he => hnd.1 (Or.inl he)
    by_cases hky : k = ky
    · subst hky
      simp [lookupImg, hne]
    · by_cases hkx : k = kx
      · subst hkx
        simp [lookupImg, hne.symm, hky]
      · simp [lookupImg, hky, hkx]
  | trans h12 h23 ih12 ih23 =>
    exact (ih12 hnd).trans (ih23 ((h12.map Prod.fst).nodup_iff.mp hnd))

/-- The append loop only reads the map, so maps with equal reads build
equal indices. -/
theorem manifestIndexLoop_congr {Img : Type} {l1 l2 : List (String × Img)}
    (h : ∀ k, lookupImg k l1 = lookupImg k l2) :
    ∀ platforms : List String,
      manifestIndexLoop l1 platforms = manifestIndexLoop l2 platforms := by
  intro platforms
  induction platforms with
  | nil => rfl
  | cons p rest ih =>
    unfold manifestIndexLoop
    rw [h p, ih]

/-- Lexicographic sorting of two permutations of the same keys is equal. -/
theorem sortStrings_perm_eq {k1 k2 : List String} (h : k1.Perm k2) :
    sortStrings k1 = sortStrings k2 :=
  List.eq_of_perm_of_sorted
    ((List.perm_insertionSort _ _).trans (h.trans (List.perm_insertionSort _ _).symm))
    (List.sorted_insertionSort _ _) (List.sorted_insertionSort _ _)

/-- C1: `PushManifestList` is insertion-order independent: over two
enumerations of the same platform-image map (permutations with unique
keys) it builds the same index, performs the same write, and returns the
same locally computed digest. -/
theorem pushManifestList_order_independent {Img : Type} (w : RegistryWorld Img)
    (manifestRef : String) (l1 l2 : List (String × Img)) (hperm : l1.Perm l2)
    (hnd : (l1.map Prod.fst).Nodup) :
    pushManifestList w manifestRef l1 = pushManifestList w manifestRef l2 := by
  have hidx : manifestIndex l1 = manifestIndex l2 := by
    unfold manifestIndex
    rw [sortStrings_perm_eq (hperm.map Prod.fst)]
    exact manifestIndexLoop_congr (fun k => lookupImg_perm hperm hnd k) _
  unfold pushManifestList
  rw [hidx]

/-- Witness for C1: the two insertion orders of the amd64/arm64 map produce
the same push result. -/
theorem pushManifestList_order_independent_witness :
    pushManifestList w1 "dest.example/app:v1"
        [("linux/arm64", 2), ("linux/amd64", 1)] =
      pushManifestList w1 "dest.example/app:v1"
        [("linux/amd64", 1), ("linux/arm64", 2)] :=
  pushManifestList_order_independent w1 "dest.example/app:v1"
    [("linux/arm64", 2), ("linux/amd64", 1)] [("linux/amd64", 1), ("linux/arm64", 2)]
    (List.Perm.swap ("linux/amd64", 1) ("linux/arm64", 2) [])
    (by decide)

/-- Witness for C2 at a concrete single-platform world. -/
theorem syncImage_digest_provenance_witness :
    (∀ r, Op.getDigest r ∉
      [Op.getImage "lib/app:v1", Op.copyImage "lib/app:v1" "dest.example/app:v1",
       Op.getImageHandle "dest.example/app:v1"]) ∧
    ((w2.copyImage "lib/app:v1" "dest.example/app:v1" = .ok () ∧
      ∃ img, w2.getImageHandle "dest.example/app:v1" = .ok img ∧
        "sha256:local" = w2.imgDigest img) ∨
     (∃ pim idx, manifestIndex pim = some idx ∧ "sha256:local" = w2.indexDigest idx ∧
       ∀ pi ∈ pim, w2.getImageHandle (platformDst "dest.example/app:v1" pi.1) = .ok pi.2)) :=
  syncImage_digest_provenance w2 "lib/app:v1" "dest.example/app:v1" "sha256:local"
    [Op.getImage "lib/app:v1", Op.copyImage "lib/app:v1" "dest.example/app:v1",
     Op.getImageHandle "dest.example/app:v1"] (by decide)

/-- C5: when the image carries an expected digest and the live digest the
tag resolves to differs from it, VersionCheck execution returns the
digest-mismatch integrity error with no update check recorded in the trace
(CheckVersion never runs); when no expected digest was supplied, the
execution outcome is exactly the update phase's outcome, so this path
cannot fail the resource. -/
theorem versionCheckExecute_mismatch (w : VersionWorld) (img : SImage) :
    (∀ actual, img.digest ≠ "" → getTagDigest w (tagRef img) = .ok actual →
      actual ≠ img.digest →
      versionCheckExecute w img =
        (.error (errDigestMismatch ++ ": current version " ++ tagRef img ++
            " points to " ++ actual ++ ", expected " ++ img.digest),
         [VOp.tagDigest (tagRef img)]) ∧
      (∀ a b c, VOp.checkUpdates a b c ∉ (versionCheckExecute w img).2)) ∧
    (img.digest = "" →
      (versionCheckExecute w img).1 = (versionCheckUpdatePhase w img).1) := by
  constructor
  · intro actual hne hget hdiff
    have hexec : versionCheckExecute w img =
        (.error (errDigestMismatch ++ ": current version " ++ tagRef img ++
            " points to " ++ actual ++ ", expected " ++ img.digest),
         [VOp.tagDigest (tagRef img)]) := by
      unfold versionCheckExecute
      simp [hne, getTagDigest] at hget ⊢
      simp [hget, hdiff]
    refine ⟨hexec, ?_⟩
    intro a b c
    rw [hexec]
    simp
  · intro hempty
    unfold versionCheckExecute
    rcases hup : versionCheckUpdatePhase w img with ⟨res, tr⟩
    simp [hempty, hup]

end Cran
